import Mathlib

/-!
Verification of the cable path tracing trigger layer (`dcim/signals.py`)
against its design specification.

The source file under verification is the Update Orchestrator: the signal
handlers `update_connected_endpoints`, `retrace_cable_paths` and
`nullify_connected_endpoints`.  The Path Tracer itself (`create_cablepath`,
`rebuild_paths`, `CablePath.retrace`) lives outside the provided source
excerpt, so those operations are modelled from the specification
(sections 4.1 and 4.3) and clearly marked as such below.
-/

namespace CablePathSpec

/-- A connectable node: either a path endpoint (interface, power port, ...)
or a pass-through node (patch panel port, ...).  Mirrors the
`PathEndpoint` vs pass-through distinction used by
`isinstance(nodes[0], PathEndpoint)` in `update_connected_endpoints`. -/
inductive Node where
  | endpoint (id : Nat)
  | passthrough (id : Nat)
deriving DecidableEq

/-- Cable end designator, mirroring `cable_end='A'` / `'B'`. -/
inductive CableEnd where
  | A
  | B
deriving DecidableEq

/-- A Termination Reference: a connectable object plus the cable end it
occupies (the `CableTermination.termination` / `cable_end` pair). -/
structure TermRef where
  termination : Node
  cable_end : CableEnd
deriving DecidableEq

/-- Link status, mirroring `LinkStatusChoices`
(connected / planned / not-connected per the spec data model). -/
inductive LinkStatus where
  | connected
  | planned
  | not_connected
deriving DecidableEq

/-- A Link (Cable): identity, termination references, current status and
the previous status captured for change detection (`_orig_status`). -/
structure Cable where
  id : Nat
  terminations : List TermRef
  status : LinkStatus
  _orig_status : LinkStatus
deriving DecidableEq

/-- An entry of a CablePath's `_nodes` sequence: either a traversed Link
(referenced by cable id) or a traversed termination node. -/
inductive PathNode where
  | link (id : Nat)
  | mid (n : Node)
deriving DecidableEq

/-- A CablePath: origin endpoints, ordered `_nodes` sequence of traversed
links and pass-through nodes, destination endpoints, and `is_active`. -/
structure CablePath where
  origin : List Node
  _nodes : List PathNode
  destinations : List Node
  is_active : Bool
deriving DecidableEq

/-- A `CableTermination` row as seen by `nullify_connected_endpoints`:
the content type of the termination object and its primary key. -/
structure CableTermination where
  termination_type : Nat
  termination_id : Nat
deriving DecidableEq

/-- A termination object (interface, port, ...) carrying the cached
"link peer" back-reference fields `_link_peer_type` / `_link_peer_id`. -/
structure TerminationObj where
  termType : Nat
  pk : Nat
  _link_peer_type : Option Nat
  _link_peer_id : Option Nat
deriving DecidableEq

/-- The state visible to the orchestrator: stored Cables, stored
CablePaths, and the termination objects owning link-peer caches. -/
structure Sys where
  cables : List Cable
  paths : List CablePath
  termObjs : List TerminationObj
deriving DecidableEq

/-- Does cable `c` have node `n` among its terminations? -/
def isAttached (c : Cable) (n : Node) : Bool :=
  c.terminations.any (fun t => decide (t.termination = n))

/-- The cables of `cs` attached to node `n`. -/
def attachedCables (cs : List Cable) (n : Node) : List Cable :=
  cs.filter (fun c => isAttached c n)

/-- All termination nodes appearing on any cable of `cs`. -/
def allTermNodes (cs : List Cable) : List Node :=
  (cs.map (fun c => c.terminations.map (fun t => t.termination))).flatten

/-- Modelled from the spec: the next link of the walk — the first stored
cable attached to `cur` other than the cable we arrived on
(spec 4.1 step 4, "from a current node, find the Link attached to it"). -/
def findNextLink (cs : List Cable) (cur : Node) (arrived : Option Nat) : Option Cable :=
  cs.find? (fun c => isAttached c cur && decide (some c.id ≠ arrived))

/-- The cable end on which node `n` sits in cable `c`. -/
def endOf (c : Cable) (n : Node) : Option CableEnd :=
  (c.terminations.find? (fun t => decide (t.termination = n))).map (fun t => t.cable_end)

/-- The other cable end. -/
def otherEnd : CableEnd → CableEnd
  | CableEnd.A => CableEnd.B
  | CableEnd.B => CableEnd.A

/-- Modelled from the spec: follow cable `c` from node `n` to the first
termination of the opposite end (spec 4.1 step 4, "follow the Link to the
opposite termination set"). -/
def oppositeFirst (c : Cable) (n : Node) : Option Node :=
  match endOf c n with
  | none => none
  | some e =>
      ((c.terminations.filter (fun t => decide (t.cable_end = otherEnd e))).map
        (fun t => t.termination)).head?

/-- Walk failure classification (spec section 7): `cycle` is the
CycleError raised when a node recurs during a walk. -/
inductive TraceErr where
  | cycle
  | fuelOut
deriving DecidableEq

/-- Modelled from the spec: one walk of the Path Tracer (spec 4.1 steps
4, 6 and 7), missing from the source excerpt.  From `cur`, find the next
attached Link; no Link or a non-connected Link terminates the walk (the
non-connected Link is recorded); otherwise follow the Link to the opposite
termination: an Endpoint is a destination, a Pass-Through node is stepped
through, guarded by the visited set (a revisited node raises CycleError).
Returns the traversed `_nodes` suffix and the destinations reached. -/
def walk (cs : List Cable) : Nat → List Node → Option Nat → Node →
    Except TraceErr (List PathNode × List Node)
  | F, v, a, cur =>
    match findNextLink cs cur a with
    | none => Except.ok ([], [])
    | some c =>
      if c.status = LinkStatus.connected then
        match oppositeFirst c cur with
        | none => Except.ok ([PathNode.link c.id], [])
        | some (Node.endpoint e) =>
            Except.ok ([PathNode.link c.id], [Node.endpoint e])
        | some (Node.passthrough q) =>
            if Node.passthrough q ∈ v then Except.error TraceErr.cycle
            else
              match F with
              | 0 => Except.error TraceErr.fuelOut
              | F' + 1 =>
                match walk cs F' (Node.passthrough q :: v) (some c.id) (Node.passthrough q) with
                | Except.error e => Except.error e
                | Except.ok (ns, ds) =>
                    Except.ok (PathNode.link c.id :: PathNode.mid (Node.passthrough q) :: ns, ds)
      else Except.ok ([PathNode.link c.id], [])

/-- Walk fuel: one more than the number of termination entries; a
successful walk visits pairwise distinct termination nodes, so this bound
is never the cause of a failure on well-formed stores. -/
def fuelFor (cs : List Cable) : Nat := (allTermNodes cs).length + 1

/-- Modelled from the spec: a full walk starting at origin `o`
(spec 4.1, "starting from a set of nodes"). -/
def walkFromOrigin (cs : List Cable) (o : Node) :
    Except TraceErr (List PathNode × List Node) :=
  walk cs (fuelFor cs) [o] none o

/-- Activity flag of a node sequence: false iff some traversed Link is
missing or not in "connected" status (spec data model of CablePath). -/
def isActive (cs : List Cable) (ns : List PathNode) : Bool :=
  ns.all (fun pn =>
    match pn with
    | PathNode.link i =>
        match cs.find? (fun c => decide (c.id = i)) with
        | some c => decide (c.status = LinkStatus.connected)
        | none => false
    | PathNode.mid _ => true)

/-- Modelled from the spec: the CablePath produced for one originating
Endpoint (spec 4.1 step 2, "one new path per originating Endpoint"); no
path is produced for a non-endpoint origin, a failed walk (CycleError
branch persists nothing, spec section 7), or an origin with no link. -/
def mkPathFromOrigin (cs : List Cable) (n : Node) : Option CablePath :=
  match n with
  | Node.endpoint _ =>
    match walkFromOrigin cs n with
    | Except.ok (ns, ds) =>
        if ns.isEmpty then none
        else some { origin := [n], _nodes := ns, destinations := ds,
                    is_active := isActive cs ns }
    | Except.error _ => none
  | Node.passthrough _ => none

/-- Modelled from the spec: `create_cablepath(nodes)` — initiate one new
path per originating Endpoint of `nodes` (spec 4.1 step 2). -/
def create_cablepath (nodes : List Node) (s : Sys) : Sys :=
  { s with paths := s.paths ++ nodes.filterMap (mkPathFromOrigin s.cables) }

/-- Modelled from the spec: `CablePath.retrace()` — re-walk the path from
its stored starting node using current Link/Termination state, updating
node sequence, destinations and `is_active` in place, or deleting the
path (`none`) when the origin no longer begins a traceable chain
(spec 4.3). -/
def retrace (cs : List Cable) (p : CablePath) : Option CablePath :=
  match p.origin.head? with
  | some (Node.endpoint e) =>
    match walkFromOrigin cs (Node.endpoint e) with
    | Except.ok (ns, ds) =>
        if ns.isEmpty then none
        else some { origin := p.origin, _nodes := ns, destinations := ds,
                    is_active := isActive cs ns }
    | Except.error _ => none
  | _ => none

/-- Does CablePath `p` contain the link with cable id `i` in its `_nodes`
sequence (the `_nodes__contains=instance` query for a Cable)? -/
def containsLink (p : CablePath) (i : Nat) : Bool :=
  decide (PathNode.link i ∈ p._nodes)

/-- Modelled from the spec: `rebuild_paths(nodes)` — locate every existing
CablePath whose node sequence contains any of the given nodes, and re-walk
each one from scratch (spec 4.1 step 3). -/
def rebuild_paths (nodes : List PathNode) (s : Sys) : Sys :=
  { s with paths := s.paths.filterMap (fun p =>
      if p._nodes.any (fun pn => decide (pn ∈ nodes)) then retrace s.cables p
      else some p) }

/-- The termination nodes of cable `c` on end `e`
(`inst.terminations.filter(cable_end=e)` mapped to `.termination`). -/
def endNodes (c : Cable) (e : CableEnd) : List Node :=
  (c.terminations.filter (fun t => decide (t.cable_end = e))).map
    (fun t => t.termination)

/-- One iteration of the created-cable loop of
`update_connected_endpoints`: an empty end is skipped (`continue`);
otherwise dispatch on the category of the first node
(`isinstance(nodes[0], PathEndpoint)`). -/
def processNodes (nodes : List Node) (s : Sys) : Sys :=
  if nodes.isEmpty then s
  else
    match nodes.head? with
    | some (Node.endpoint _) => create_cablepath nodes s
    | _ => rebuild_paths (nodes.map PathNode.mid) s

/-- The `trace_paths` receiver `update_connected_endpoints` of
`dcim/signals.py`: on a newly created Cable, group terminations by end and
dispatch per end; on an existing Cable whose status changed, either mark
containing paths inactive (new status not "connected") or rebuild the
paths containing the cable (new status "connected"); otherwise no-op. -/
def update_connected_endpoints (inst : Cable) (created : Bool) (raw : Bool)
    (s : Sys) : Sys :=
  if raw then s
  else if created then
    [endNodes inst CableEnd.A, endNodes inst CableEnd.B].foldl
      (fun acc nodes => processNodes nodes acc) s
  else if inst.status ≠ inst._orig_status then
    if inst.status ≠ LinkStatus.connected then
      { s with paths := s.paths.map (fun p =>
          if containsLink p inst.id then { p with is_active := false } else p) }
    else rebuild_paths [PathNode.link inst.id] s
  else s

/-- The `post_delete` receiver `retrace_cable_paths` of
`dcim/signals.py`: retrace every CablePath containing the deleted Cable. -/
def retrace_cable_paths (inst : Cable) (s : Sys) : Sys :=
  { s with paths := s.paths.filterMap (fun p =>
      if containsLink p inst.id then retrace s.cables p else some p) }

/-- Remove the cable with id `i` from the store (the storage layer's
deletion, performed before the `post_delete` signal fires). -/
def deleteCables (cs : List Cable) (i : Nat) : List Cable :=
  cs.filter (fun c => decide (c.id ≠ i))

/-- A Cable deletion event: the storage layer removes the cable, then the
`post_delete` receiver `retrace_cable_paths` runs on the new state. -/
def on_link_deleted (inst : Cable) (s : Sys) : Sys :=
  retrace_cable_paths inst { s with cables := deleteCables s.cables inst.id }

/-- The `post_delete` receiver `nullify_connected_endpoints` of
`dcim/signals.py`: clear the cached link-peer back-reference fields on
the termination object owning the deleted `CableTermination`. -/
def nullify_connected_endpoints (inst : CableTermination) (s : Sys) : Sys :=
  { s with termObjs := s.termObjs.map (fun o =>
      if o.termType = inst.termination_type ∧ o.pk = inst.termination_id then
        { o with _link_peer_type := none, _link_peer_id := none }
      else o) }

/-- Well-formedness of a cable store: cable ids are pairwise distinct, an
endpoint is attached to at most one cable and a pass-through node (having
exactly two internal sides) to at most two. -/
def nodeCap : Node → Nat
  | Node.endpoint _ => 1
  | Node.passthrough _ => 2

def envWF (cs : List Cable) : Prop :=
  (cs.map Cable.id).Nodup ∧
    ∀ n ∈ allTermNodes cs, (attachedCables cs n).length ≤ nodeCap n

instance (cs : List Cable) : Decidable (envWF cs) := by
  unfold envWF; infer_instance

/-- The pass-through nodes recorded in a `_nodes` sequence. -/
def midNodes (ns : List PathNode) : List Node :=
  ns.filterMap (fun pn =>
    match pn with
    | PathNode.mid n => some n
    | PathNode.link _ => none)


/-! ## Helper lemmas about the orchestrator's storage frame -/

lemma create_cablepath_cables (nodes : List Node) (s : Sys) :
    (create_cablepath nodes s).cables = s.cables := rfl

lemma rebuild_paths_cables (nodes : List PathNode) (s : Sys) :
    (rebuild_paths nodes s).cables = s.cables := rfl

lemma processNodes_cables (nodes : List Node) (s : Sys) :
    (processNodes nodes s).cables = s.cables := by
  unfold processNodes
  split
  · rfl
  · split <;> rfl

lemma any_mem_singleton (l : List PathNode) (x : PathNode) :
    (l.any (fun pn => decide (pn ∈ [x]))) = decide (x ∈ l) := by
  rw [Bool.eq_iff_iff]
  simp [List.any_eq_true, List.mem_singleton]

/-! ## Witness fixtures: the §8 scenario
endpoint 1 —cable 10 (connected)— passthrough 2 —cable 20— endpoint 3 -/

def wA : Node := Node.endpoint 1
def wP : Node := Node.passthrough 2
def wB : Node := Node.endpoint 3

def wL1 : Cable :=
  { id := 10, terminations := [⟨wA, CableEnd.A⟩, ⟨wP, CableEnd.B⟩],
    status := LinkStatus.connected, _orig_status := LinkStatus.connected }

def wL2 : Cable :=
  { id := 20, terminations := [⟨wP, CableEnd.A⟩, ⟨wB, CableEnd.B⟩],
    status := LinkStatus.connected, _orig_status := LinkStatus.planned }

def wL2off : Cable :=
  { id := 20, terminations := [⟨wP, CableEnd.A⟩, ⟨wB, CableEnd.B⟩],
    status := LinkStatus.planned, _orig_status := LinkStatus.connected }

def wPath : CablePath :=
  { origin := [wA], _nodes := [PathNode.link 10, PathNode.mid wP, PathNode.link 20],
    destinations := [wB], is_active := true }

def wStray : CablePath :=
  { origin := [Node.endpoint 9], _nodes := [PathNode.link 90],
    destinations := [], is_active := true }

def wSys : Sys := { cables := [wL1, wL2], paths := [wPath, wStray], termObjs := [] }

def wSysOff : Sys := { cables := [wL1, wL2off], paths := [wPath, wStray], termObjs := [] }

/-! ## Claim C9 -/

/-- C9: a save event on an existing (non-created) Link whose status equals
its previous status performs no CablePath mutation at all: the orchestrator
returns the store unchanged. -/
theorem c9_no_status_change_noop (inst : Cable) (raw : Bool) (s : Sys)
    (h : inst.status = inst._orig_status) :
    update_connected_endpoints inst false raw s = s := by
  unfold update_connected_endpoints
  cases raw
  · simp [h]
  · simp

theorem c9_no_status_change_noop_witness :
    wL1.status = wL1._orig_status ∧
      update_connected_endpoints wL1 false false wSys = wSys :=
  ⟨by decide, c9_no_status_change_noop wL1 false wSys (by decide)⟩

/-! ## Claim C2 -/

/-- C2: on an existing Link whose status changes to a value other than
"connected", the orchestrator sets `is_active := false` on every CablePath
containing that Link and alters nothing else: cables and termination
objects are untouched, and every path keeps its node sequence, origin and
destinations. -/
theorem c2_status_change_marks_inactive (inst : Cable) (s : Sys)
    (hch : inst.status ≠ inst._orig_status)
    (hnc : inst.status ≠ LinkStatus.connected) :
    (update_connected_endpoints inst false false s).cables = s.cables ∧
    (update_connected_endpoints inst false false s).termObjs = s.termObjs ∧
    (update_connected_endpoints inst false false s).paths =
      s.paths.map (fun p =>
        if containsLink p inst.id then { p with is_active := false } else p) ∧
    (∀ p : CablePath,
      ((if containsLink p inst.id then { p with is_active := false } else p)._nodes
          = p._nodes) ∧
      ((if containsLink p inst.id then { p with is_active := false } else p).origin
          = p.origin) ∧
      ((if containsLink p inst.id then { p with is_active := false } else p).destinations
          = p.destinations) ∧
      (containsLink p inst.id = true →
        (if containsLink p inst.id then { p with is_active := false } else p).is_active
          = false) ∧
      (containsLink p inst.id = false →
        (if containsLink p inst.id then { p with is_active := false } else p) = p)) := by
  refine ⟨?_, ?_, ?_, ?_⟩
  · unfold update_connected_endpoints
    simp [hch, hnc]
  · unfold update_connected_endpoints
    simp [hch, hnc]
  · unfold update_connected_endpoints
    simp [hch, hnc]
  · intro p
    by_cases h : containsLink p inst.id <;> simp [h]

theorem c2_status_change_marks_inactive_witness :
    wL2off.status ≠ wL2off._orig_status ∧
    wL2off.status ≠ LinkStatus.connected ∧
    (update_connected_endpoints wL2off false false wSysOff).paths =
      [{ wPath with is_active := false }, wStray] := by
  refine ⟨by decide, by decide, ?_⟩
  have h := (c2_status_change_marks_inactive wL2off wSysOff (by decide) (by decide)).2.2.1
  rw [h]
  decide

/-! ## Claim C3 -/

/-- C3: on an existing Link whose status changes to "connected", the
orchestrator invokes `rebuild_paths` on that Link, which re-traces
(fully rebuilds) every CablePath whose node sequence contains the Link
rather than merely flipping `is_active`. -/
theorem c3_status_connected_rebuilds (inst : Cable) (s : Sys)
    (hch : inst.status ≠ inst._orig_status)
    (hco : inst.status = LinkStatus.connected) :
    update_connected_endpoints inst false false s =
      rebuild_paths [PathNode.link inst.id] s ∧
    (∀ s2 : Sys, (rebuild_paths [PathNode.link inst.id] s2).paths =
      s2.paths.filterMap (fun p =>
        if containsLink p inst.id then retrace s2.cables p else some p)) := by
  constructor
  · unfold update_connected_endpoints
    rw [hco] at hch
    simp [hco, hch]
  · intro s2
    unfold rebuild_paths
    simp only [any_mem_singleton]
    rfl

theorem c3_status_connected_rebuilds_witness :
    wL2.status ≠ wL2._orig_status ∧
    wL2.status = LinkStatus.connected ∧
    update_connected_endpoints wL2 false false wSys =
      rebuild_paths [PathNode.link wL2.id] wSys ∧
    (rebuild_paths [PathNode.link wL2.id] wSys).paths =
      [{ origin := [wA], _nodes := [PathNode.link 10, PathNode.mid wP, PathNode.link 20],
         destinations := [wB], is_active := true }, wStray] := by
  refine ⟨by decide, by decide, ?_, ?_⟩
  · exact (c3_status_connected_rebuilds wL2 wSys (by decide) (by decide)).1
  · rw [(c3_status_connected_rebuilds wL2 wSys (by decide) (by decide)).2 wSys]
    decide


/-! ## Claim C1 -/

/-- C1: on a newly created Link, the orchestrator groups the terminations
by cable end A/B and processes the two ends in order; a non-empty end
whose first node is an Endpoint is handed to `create_cablepath` with that
end's node list (which appends one new path per originating Endpoint),
and a non-empty end whose first node is a Pass-Through node is handed to
`rebuild_paths` with that end's node list. -/
theorem c1_created_dispatch (inst : Cable) (s : Sys) :
    (update_connected_endpoints inst true false s =
      processNodes (endNodes inst CableEnd.B)
        (processNodes (endNodes inst CableEnd.A) s)) ∧
    (∀ (nodes : List Node) (σ : Sys) (e : Nat) (rest : List Node),
      nodes = Node.endpoint e :: rest →
        processNodes nodes σ = create_cablepath nodes σ) ∧
    (∀ (nodes : List Node) (σ : Sys) (q : Nat) (rest : List Node),
      nodes = Node.passthrough q :: rest →
        processNodes nodes σ = rebuild_paths (nodes.map PathNode.mid) σ) ∧
    (∀ (σ : Sys) (nodes : List Node),
      (create_cablepath nodes σ).paths =
        σ.paths ++ nodes.filterMap (mkPathFromOrigin σ.cables)) := by
  refine ⟨?_, ?_, ?_, ?_⟩
  · unfold update_connected_endpoints
    simp [List.foldl]
  · intro nodes σ e rest h
    subst h
    rfl
  · intro nodes σ q rest h
    subst h
    rfl
  · intro σ nodes
    rfl

theorem c1_created_dispatch_witness :
    (endNodes wL1 CableEnd.A = [wA] ∧ wA = Node.endpoint 1) ∧
    processNodes [wA] wSys = create_cablepath [wA] wSys ∧
    processNodes [wP] wSys = rebuild_paths [PathNode.mid wP] wSys ∧
    update_connected_endpoints wL1 true false wSys =
      processNodes (endNodes wL1 CableEnd.B)
        (processNodes (endNodes wL1 CableEnd.A) wSys) := by
  refine ⟨by decide, ?_, ?_, ?_⟩
  · exact (c1_created_dispatch wL1 wSys).2.1 [wA] wSys 1 [] rfl
  · have := (c1_created_dispatch wL1 wSys).2.2.1 [wP] wSys 2 [] rfl
    simpa using this
  · exact (c1_created_dispatch wL1 wSys).1

/-! ## Claim C10 -/

/-- C10: on a newly created Link, an end with an empty termination set is
silently skipped — `processNodes []` is the identity, so neither
`create_cablepath` nor `rebuild_paths` runs for that end and no first
node is inspected — while the other end is still processed normally. -/
theorem c10_empty_end_skipped (inst : Cable) (s : Sys) :
    (endNodes inst CableEnd.A = [] →
      update_connected_endpoints inst true false s =
        processNodes (endNodes inst CableEnd.B) s) ∧
    (endNodes inst CableEnd.B = [] →
      update_connected_endpoints inst true false s =
        processNodes (endNodes inst CableEnd.A) s) ∧
    (∀ σ : Sys, processNodes [] σ = σ) := by
  refine ⟨?_, ?_, fun σ => rfl⟩
  · intro h
    unfold update_connected_endpoints
    simp [List.foldl, h]
    rfl
  · intro h
    unfold update_connected_endpoints
    simp [List.foldl, h]
    rfl

def wLhalf : Cable :=
  { id := 30, terminations := [⟨wB, CableEnd.B⟩],
    status := LinkStatus.connected, _orig_status := LinkStatus.connected }

theorem c10_empty_end_skipped_witness :
    endNodes wLhalf CableEnd.A = [] ∧
    update_connected_endpoints wLhalf true false wSys =
      processNodes (endNodes wLhalf CableEnd.B) wSys :=
  ⟨by decide, (c10_empty_end_skipped wLhalf wSys).1 (by decide)⟩

/-! ## Claim C6 -/

/-- C6: no orchestrator operation mutates any Link's termination set (or
any Link at all): every handler and every tracing operation leaves the
cable store — and with it the Termination References fixed at Link
creation — unchanged; on an existing Link only a status transition leads
to any work at all. -/
theorem c6_terminations_immutable (inst : Cable) (created raw : Bool) (s : Sys) :
    ((update_connected_endpoints inst created raw s).cables = s.cables) ∧
    (∀ c : Cable, c ∈ s.cables →
      c ∈ (update_connected_endpoints inst created raw s).cables ∧
      c.terminations = c.terminations) ∧
    (∀ (nodes : List Node) (σ : Sys), (create_cablepath nodes σ).cables = σ.cables) ∧
    (∀ (nodes : List PathNode) (σ : Sys), (rebuild_paths nodes σ).cables = σ.cables) ∧
    (∀ σ : Sys, (retrace_cable_paths inst σ).cables = σ.cables) ∧
    (∀ (t : CableTermination) (σ : Sys),
      (nullify_connected_endpoints t σ).cables = σ.cables) ∧
    (created = false → raw = false → inst.status = inst._orig_status →
      update_connected_endpoints inst created raw s = s) := by
  have hcab : (update_connected_endpoints inst created raw s).cables = s.cables := by
    unfold update_connected_endpoints
    cases raw
    · cases created
      · by_cases h1 : inst.status ≠ inst._orig_status
        · by_cases h2 : inst.status ≠ LinkStatus.connected
          · simp [h1, h2]
          · simp [h1, h2, rebuild_paths]
        · simp [h1]
      · simp [List.foldl, processNodes_cables]
    · simp
  refine ⟨hcab, ?_, fun nodes σ => rfl, fun nodes σ => rfl, fun σ => rfl,
    fun t σ => rfl, ?_⟩
  · intro c hc
    rw [hcab]
    exact ⟨hc, rfl⟩
  · intro h1 h2 h3
    subst h1; subst h2
    unfold update_connected_endpoints
    simp [h3]

/-! ## Claim C5 -/

/-- C5: deleting a Termination Reference clears the cached link-peer
back-reference fields (`_link_peer_type`, `_link_peer_id`) on the owning
termination object — identified by content type and primary key — and
performs no other mutation: cables and CablePaths are untouched, every
other termination object is unchanged, and the matching object keeps its
identity fields. -/
theorem c5_termination_delete_clears_peer (inst : CableTermination) (s : Sys) :
    ((nullify_connected_endpoints inst s).cables = s.cables) ∧
    ((nullify_connected_endpoints inst s).paths = s.paths) ∧
    ((nullify_connected_endpoints inst s).termObjs = s.termObjs.map (fun o =>
      if o.termType = inst.termination_type ∧ o.pk = inst.termination_id then
        { o with _link_peer_type := none, _link_peer_id := none }
      else o)) ∧
    (∀ o : TerminationObj,
      (o.termType = inst.termination_type → o.pk = inst.termination_id →
        (if o.termType = inst.termination_type ∧ o.pk = inst.termination_id then
            { o with _link_peer_type := none, _link_peer_id := none }
          else o) =
          { o with _link_peer_type := none, _link_peer_id := none }) ∧
      (¬(o.termType = inst.termination_type ∧ o.pk = inst.termination_id) →
        (if o.termType = inst.termination_type ∧ o.pk = inst.termination_id then
            { o with _link_peer_type := none, _link_peer_id := none }
          else o) = o)) := by
  refine ⟨rfl, rfl, rfl, ?_⟩
  intro o
  constructor
  · intro h1 h2
    rw [if_pos ⟨h1, h2⟩]
  · intro h
    rw [if_neg h]


/-! ## Walk lemmas -/

lemma walk_step_eq (cs : List Cable) (F : Nat) (v : List Node) (a : Option Nat)
    (cur : Node) :
    walk cs F v a cur =
    match findNextLink cs cur a with
    | none => Except.ok ([], [])
    | some c =>
      if c.status = LinkStatus.connected then
        match oppositeFirst c cur with
        | none => Except.ok ([PathNode.link c.id], [])
        | some (Node.endpoint e) =>
            Except.ok ([PathNode.link c.id], [Node.endpoint e])
        | some (Node.passthrough q) =>
            if Node.passthrough q ∈ v then Except.error TraceErr.cycle
            else
              match F with
              | 0 => Except.error TraceErr.fuelOut
              | F' + 1 =>
                match walk cs F' (Node.passthrough q :: v) (some c.id) (Node.passthrough q) with
                | Except.error e => Except.error e
                | Except.ok (ns, ds) =>
                    Except.ok (PathNode.link c.id :: PathNode.mid (Node.passthrough q) :: ns, ds)
      else Except.ok ([PathNode.link c.id], []) := by
  rw [walk]

lemma findNextLink_mem {cs : List Cable} {cur : Node} {a : Option Nat} {c : Cable}
    (h : findNextLink cs cur a = some c) :
    c ∈ cs ∧ isAttached c cur = true ∧ some c.id ≠ a := by
  have h1 := List.mem_of_find?_eq_some h
  have h2 := List.find?_some h
  simp only [Bool.and_eq_true, decide_eq_true_eq] at h2
  exact ⟨h1, h2.1, h2.2⟩

lemma oppositeFirst_mem {c : Cable} {n m : Node}
    (h : oppositeFirst c n = some m) :
    m ∈ c.terminations.map (fun t => t.termination) := by
  unfold oppositeFirst at h
  split at h
  · cases h
  · have hm := List.mem_of_mem_head? (Option.mem_iff.mpr h)
    simp only [List.mem_map, List.mem_filter] at hm ⊢
    obtain ⟨t, ⟨ht, _⟩, rfl⟩ := hm
    exact ⟨t, ht, rfl⟩

lemma mem_allTermNodes_of {cs : List Cable} {c : Cable} (hc : c ∈ cs) {m : Node}
    (hm : m ∈ c.terminations.map (fun t => t.termination)) :
    m ∈ allTermNodes cs := by
  unfold allTermNodes
  rw [List.mem_flatten]
  exact ⟨c.terminations.map (fun t => t.termination), List.mem_map_of_mem _ hc, hm⟩



lemma walk_zero_eq (cs : List Cable) (v : List Node) (a : Option Nat) (cur : Node) :
    walk cs 0 v a cur =
    match findNextLink cs cur a with
    | none => Except.ok ([], [])
    | some c =>
      if c.status = LinkStatus.connected then
        match oppositeFirst c cur with
        | none => Except.ok ([PathNode.link c.id], [])
        | some (Node.endpoint e) =>
            Except.ok ([PathNode.link c.id], [Node.endpoint e])
        | some (Node.passthrough q) =>
            if Node.passthrough q ∈ v then Except.error TraceErr.cycle
            else Except.error TraceErr.fuelOut
      else Except.ok ([PathNode.link c.id], []) := by
  rw [walk]

lemma walk_succ_eq (cs : List Cable) (F' : Nat) (v : List Node) (a : Option Nat)
    (cur : Node) :
    walk cs (F' + 1) v a cur =
    match findNextLink cs cur a with
    | none => Except.ok ([], [])
    | some c =>
      if c.status = LinkStatus.connected then
        match oppositeFirst c cur with
        | none => Except.ok ([PathNode.link c.id], [])
        | some (Node.endpoint e) =>
            Except.ok ([PathNode.link c.id], [Node.endpoint e])
        | some (Node.passthrough q) =>
            if Node.passthrough q ∈ v then Except.error TraceErr.cycle
            else
              match walk cs F' (Node.passthrough q :: v) (some c.id) (Node.passthrough q) with
              | Except.error e => Except.error e
              | Except.ok (ns, ds) =>
                  Except.ok (PathNode.link c.id :: PathNode.mid (Node.passthrough q) :: ns, ds)
      else Except.ok ([PathNode.link c.id], []) := by
  rw [walk]

/-- A successful walk records pairwise distinct pass-through nodes, none
of them previously visited, and all of them termination entries of the
cable store: a walk that would revisit a node never returns `ok`. -/
lemma walk_ok_mids (cs : List Cable) :
    ∀ (F : Nat) (v : List Node) (a : Option Nat) (cur : Node)
      (ns : List PathNode) (ds : List Node),
      walk cs F v a cur = Except.ok (ns, ds) →
      (∀ m ∈ midNodes ns, m ∉ v) ∧ (midNodes ns).Nodup ∧
        (∀ m ∈ midNodes ns, m ∈ allTermNodes cs) := by
  intro F
  induction F with
  | zero =>
      intro v a cur ns ds hw
      rw [walk_zero_eq] at hw
      split at hw
      · cases hw
        simp [midNodes]
      · split at hw
        · split at hw
          · cases hw
            simp [midNodes]
          · cases hw
            simp [midNodes]
          · split at hw
            · cases hw
            · cases hw
        · cases hw
          simp [midNodes]
  | succ F' ih =>
      intro v a cur ns ds hw
      rw [walk_succ_eq] at hw
      split at hw
      · cases hw
        simp [midNodes]
      · rename_i c hfind
        split at hw
        · split at hw
          · cases hw
            simp [midNodes]
          · cases hw
            simp [midNodes]
          · rename_i q hop
            split at hw
            · cases hw
            · rename_i hnotmem
              split at hw
              · cases hw
              · rename_i ns' ds' hrec
                cases hw
                obtain ⟨h1, h2, h3⟩ := ih _ _ _ _ _ hrec
                have hq : Node.passthrough q ∈ allTermNodes cs :=
                  mem_allTermNodes_of (findNextLink_mem hfind).1 (oppositeFirst_mem hop)
                have hmids : midNodes (PathNode.link c.id :: PathNode.mid (Node.passthrough q) :: ns')
                    = Node.passthrough q :: midNodes ns' := by
                  simp [midNodes]
                refine ⟨?_, ?_, ?_⟩
                · rw [hmids]
                  intro m hm
                  rcases List.mem_cons.mp hm with rfl | hm'
                  · exact hnotmem
                  · intro hv
                    exact h1 m hm' (List.mem_cons_of_mem _ hv)
                · rw [hmids]
                  refine List.nodup_cons.mpr ⟨?_, h2⟩
                  intro hqmem
                  exact h1 _ hqmem (List.mem_cons_self _ _)
                · rw [hmids]
                  intro m hm
                  rcases List.mem_cons.mp hm with rfl | hm'
                  · exact hq
                  · exact h3 m hm'
        · cases hw
          simp [midNodes]

/-! ## Claim C7 -/

/-- C7: retracing a CablePath whose stored contents already agree with
the current Link/Termination state — its node sequence and destinations
are exactly what a fresh walk from its stored origin produces, and
`is_active` matches the status of the traversed links — is idempotent:
`retrace` returns the path unchanged. -/
theorem c7_retrace_idempotent (cs : List Cable) (p : CablePath) (e : Nat)
    (ho : p.origin.head? = some (Node.endpoint e))
    (hw : walkFromOrigin cs (Node.endpoint e) = Except.ok (p._nodes, p.destinations))
    (hne : p._nodes ≠ [])
    (ha : p.is_active = isActive cs p._nodes) :
    retrace cs p = some p := by
  unfold retrace
  simp only [ho, hw]
  rw [if_neg (by simp [hne])]
  rw [← ha]

theorem c7_retrace_idempotent_witness :
    (wPath.origin.head? = some (Node.endpoint 1) ∧
     walkFromOrigin wSys.cables (Node.endpoint 1) =
       Except.ok (wPath._nodes, wPath.destinations) ∧
     wPath._nodes ≠ [] ∧
     wPath.is_active = isActive wSys.cables wPath._nodes) ∧
    retrace wSys.cables wPath = some wPath :=
  ⟨⟨by decide, by rfl, by decide, by decide⟩,
   c7_retrace_idempotent wSys.cables wPath 1 (by decide) (by rfl)
     (by decide) (by decide)⟩


/-! ## Claim C8 -/

/-- C8: a walk that is about to revisit a node raises `CycleError`
(first conjunct: the cycle guard fires whenever the next pass-through
node is already in the visited set); a successful walk never revisits a
node (second conjunct: its recorded pass-through nodes are pairwise
distinct and disjoint from the visited set); and in `create_cablepath`
an erroring origin branch persists no CablePath while every other origin
branch of the same mutation proceeds independently (third and fourth
conjuncts). -/
theorem c8_cycle_error :
    (∀ (cs : List Cable) (F : Nat) (v : List Node) (a : Option Nat) (cur : Node)
        (c : Cable) (q : Nat),
      findNextLink cs cur a = some c → c.status = LinkStatus.connected →
      oppositeFirst c cur = some (Node.passthrough q) → Node.passthrough q ∈ v →
      walk cs F v a cur = Except.error TraceErr.cycle) ∧
    (∀ (cs : List Cable) (F : Nat) (v : List Node) (a : Option Nat) (cur : Node)
        (ns : List PathNode) (ds : List Node),
      walk cs F v a cur = Except.ok (ns, ds) →
      (midNodes ns).Nodup ∧ ∀ m ∈ midNodes ns, m ∉ v) ∧
    (∀ (nodes : List Node) (σ : Sys),
      (create_cablepath nodes σ).paths =
        σ.paths ++ nodes.filterMap (mkPathFromOrigin σ.cables)) ∧
    (∀ (σ : Sys) (n : Node) (err : TraceErr),
      walkFromOrigin σ.cables n = Except.error err →
      mkPathFromOrigin σ.cables n = none) := by
  refine ⟨?_, ?_, fun nodes σ => rfl, ?_⟩
  · intro cs F v a cur c q hfind hst hop hmem
    rw [walk_step_eq]
    simp [hfind, hst, hop, hmem]
  · intro cs F v a cur ns ds hw
    obtain ⟨h1, h2, _⟩ := walk_ok_mids cs F v a cur ns ds hw
    exact ⟨h2, h1⟩
  · intro σ n err h
    unfold mkPathFromOrigin
    cases n with
    | endpoint e => rw [h]
    | passthrough q => rfl

/-! C8 witness fixtures: endpoint 7 feeds a pass-through cycle
(passthrough 5 → cable 1 → passthrough 6 → cable 2 → passthrough 5),
while endpoint 1 starts the healthy chain of `wSys`. -/

def wP5 : Node := Node.passthrough 5
def wP6 : Node := Node.passthrough 6
def wE7 : Node := Node.endpoint 7

def wc0 : Cable :=
  { id := 3, terminations := [⟨wE7, CableEnd.A⟩, ⟨wP5, CableEnd.B⟩],
    status := LinkStatus.connected, _orig_status := LinkStatus.connected }

def wc1 : Cable :=
  { id := 1, terminations := [⟨wP5, CableEnd.A⟩, ⟨wP6, CableEnd.B⟩],
    status := LinkStatus.connected, _orig_status := LinkStatus.connected }

def wc2 : Cable :=
  { id := 2, terminations := [⟨wP6, CableEnd.A⟩, ⟨wP5, CableEnd.B⟩],
    status := LinkStatus.connected, _orig_status := LinkStatus.connected }

def wCycSys : Sys :=
  { cables := [wc0, wc1, wc2, wL1, wL2], paths := [], termObjs := [] }

theorem c8_cycle_error_witness :
    (findNextLink [wc1, wc2] wP6 (some 1) = some wc2 ∧
     wc2.status = LinkStatus.connected ∧
     oppositeFirst wc2 wP6 = some wP5 ∧
     wP5 ∈ [wP6, wP5] ∧
     walk [wc1, wc2] 5 [wP6, wP5] (some 1) wP6 = Except.error TraceErr.cycle) ∧
    (walkFromOrigin wCycSys.cables wE7 = Except.error TraceErr.cycle ∧
     mkPathFromOrigin wCycSys.cables wE7 = none) ∧
    (create_cablepath [wE7, wA] wCycSys).paths =
      [{ origin := [wA],
         _nodes := [PathNode.link 10, PathNode.mid wP, PathNode.link 20],
         destinations := [wB], is_active := true }] := by
  refine ⟨⟨by decide, by decide, by decide, by decide, ?_⟩, ⟨by rfl, ?_⟩, ?_⟩
  · exact c8_cycle_error.1 [wc1, wc2] 5 [wP6, wP5] (some 1) wP6 wc2 5
      (by decide) (by decide) (by decide) (by decide)
  · exact c8_cycle_error.2.2.2 wCycSys wE7 TraceErr.cycle (by rfl)
  · rw [c8_cycle_error.2.2.1 [wE7, wA] wCycSys]
    rfl


/-! ## Deletion machinery: how a walk changes when a cable is removed -/

lemma mem_of_len_le_one {α : Type} {l : List α} (h : l.length ≤ 1)
    {x y : α} (hx : x ∈ l) (hy : y ∈ l) : x = y := by
  match l, h with
  | [], _ => cases hx
  | [a], _ =>
      rcases List.mem_singleton.mp hx with rfl
      rcases List.mem_singleton.mp hy with rfl
      rfl
  | a :: b :: t, h => simp at h

lemma mem_of_len_le_two {α : Type} {l : List α} (h : l.length ≤ 2)
    {x y z : α} (hx : x ∈ l) (hy : y ∈ l) (hz : z ∈ l) (hxy : x ≠ y) :
    z = x ∨ z = y := by
  match l, h with
  | [], _ => cases hx
  | [a], _ =>
      rcases List.mem_singleton.mp hx with rfl
      rcases List.mem_singleton.mp hy with rfl
      exact absurd rfl hxy
  | [a, b], _ =>
      rcases List.mem_cons.mp hx with rfl | hx' <;>
        rcases List.mem_cons.mp hy with rfl | hy' <;>
        rcases List.mem_cons.mp hz with rfl | hz' <;>
        simp_all
  | a :: b :: d :: t, h => simp at h

lemma attached_mem_term {c : Cable} {n : Node} (h : isAttached c n = true) :
    n ∈ c.terminations.map (fun t => t.termination) := by
  unfold isAttached at h
  rcases List.any_eq_true.mp h with ⟨t, ht, he⟩
  rw [decide_eq_true_eq] at he
  exact List.mem_map.mpr ⟨t, ht, he⟩

lemma isAttached_of_mem_term {c : Cable} {n : Node}
    (h : n ∈ c.terminations.map (fun t => t.termination)) :
    isAttached c n = true := by
  unfold isAttached
  rcases List.mem_map.mp h with ⟨t, ht, he⟩
  exact List.any_eq_true.mpr ⟨t, ht, decide_eq_true he⟩

lemma find?_filter_of_find? {α : Type} (p q : α → Bool) (l : List α) (d : α)
    (h : l.find? p = some d) (hq : q d = true) :
    (l.filter q).find? p = some d := by
  induction l with
  | nil => cases h
  | cons hd t ih =>
      by_cases hp : p hd
      · rw [List.find?_cons_of_pos _ hp] at h
        injection h with h
        subst h
        rw [List.filter_cons_of_pos hq]
        exact List.find?_cons_of_pos _ hp
      · rw [List.find?_cons_of_neg _ hp] at h
        rw [List.filter_cons]
        by_cases hqh : q hd
        · rw [if_pos hqh]
          rw [List.find?_cons_of_neg _ hp]
          exact ih h
        · rw [if_neg hqh]
          exact ih h

lemma findNextLink_delete_eq {cs : List Cable} {cur : Node} {a : Option Nat}
    {d : Cable} {i : Nat} (h : findNextLink cs cur a = some d) (hne : d.id ≠ i) :
    findNextLink (deleteCables cs i) cur a = some d :=
  find?_filter_of_find? _ _ cs d h (by simp [hne])

lemma findNextLink_delete_none {cs : List Cable} {cur : Node} {a : Option Nat}
    {i : Nat}
    (h : ∀ cab ∈ cs, isAttached cab cur = true → cab.id = i ∨ some cab.id = a) :
    findNextLink (deleteCables cs i) cur a = none := by
  unfold findNextLink deleteCables
  rw [List.find?_eq_none]
  intro x hx
  have hx' := List.mem_filter.mp hx
  rw [decide_eq_true_eq] at hx'
  simp only [Bool.and_eq_true, decide_eq_true_eq, not_and]
  intro hatt
  rcases h x hx'.1 hatt with hid | ha
  · exact absurd hid hx'.2
  · intro hcon
    exact hcon ha

/-- Removing cable `c` blocks the walk at `cur` when the found cable has
`c`'s id: under well-formedness, every other cable attached to `cur` is
the arrival cable, so in the smaller store the walk stops immediately. -/
lemma walk_delete_stop (cs : List Cable) (c : Cable) (hwf : envWF cs)
    {cur : Node} {a : Option Nat} {d : Cable}
    (hfind : findNextLink cs cur a = some d) (hdc : d.id = c.id)
    (hinv1 : a = none → ∃ e, cur = Node.endpoint e)
    (hinv2 : ∀ x, a = some x →
      x ≠ c.id ∧ ∃ arr ∈ cs, arr.id = x ∧ isAttached arr cur = true)
    (F₂ : Nat) (v : List Node) :
    walk (deleteCables cs c.id) F₂ v a cur = Except.ok ([], []) := by
  obtain ⟨hd_mem, hd_att, hd_ne⟩ := findNextLink_mem hfind
  have hnone : findNextLink (deleteCables cs c.id) cur a = none := by
    apply findNextLink_delete_none
    intro cab hcab hatt
    have hcabAtt : cab ∈ attachedCables cs cur := List.mem_filter.mpr ⟨hcab, hatt⟩
    have hdAtt : d ∈ attachedCables cs cur := List.mem_filter.mpr ⟨hd_mem, hd_att⟩
    have hcur : cur ∈ allTermNodes cs :=
      mem_allTermNodes_of hd_mem (attached_mem_term hd_att)
    have hbound := hwf.2 cur hcur
    cases hcurc : cur with
    | endpoint e =>
        left
        rw [hcurc] at hbound
        have : cab = d := mem_of_len_le_one (by simpa [nodeCap] using hbound)
          (hcurc ▸ hcabAtt) (hcurc ▸ hdAtt)
        rw [this, hdc]
    | passthrough p =>
        rcases a with _ | x
        · obtain ⟨e, he⟩ := hinv1 rfl
          rw [hcurc] at he
          cases he
        · obtain ⟨hxne, arr, harr_mem, harr_id, harr_att⟩ := hinv2 x rfl
          have harrAtt : arr ∈ attachedCables cs cur :=
            List.mem_filter.mpr ⟨harr_mem, harr_att⟩
          have hda : d ≠ arr := by
            intro hh
            rw [hh, harr_id] at hdc
            exact hxne hdc
          rw [hcurc] at hbound
          rcases mem_of_len_le_two (by simpa [nodeCap] using hbound)
              (hcurc ▸ hdAtt) (hcurc ▸ harrAtt) (hcurc ▸ hcabAtt) hda with h | h
          · left; rw [h, hdc]
          · right; rw [h, harr_id]
  rw [walk_step_eq, hnone]


/-- Deleting cable `c` truncates a previously successful walk at the
first traversal of `c`: the re-walk in the smaller store reproduces
exactly the node-sequence prefix before `c` and reaches no destination,
for any fuel exceeding the number of pass-through nodes in that prefix. -/
lemma walk_delete_trunc (cs : List Cable) (c : Cable) (hwf : envWF cs) :
    ∀ (F : Nat) (v : List Node) (a : Option Nat) (cur : Node)
      (ns : List PathNode) (ds : List Node),
      (a = none → ∃ e, cur = Node.endpoint e) →
      (∀ x, a = some x →
        x ≠ c.id ∧ ∃ arr ∈ cs, arr.id = x ∧ isAttached arr cur = true) →
      walk cs F v a cur = Except.ok (ns, ds) →
      PathNode.link c.id ∈ ns →
      ∀ F₂,
        (midNodes (ns.takeWhile (fun pn => decide (pn ≠ PathNode.link c.id)))).length < F₂ →
        walk (deleteCables cs c.id) F₂ v a cur =
          Except.ok (ns.takeWhile (fun pn => decide (pn ≠ PathNode.link c.id)), []) := by
  intro F
  induction F with
  | zero =>
      intro v a cur ns ds hinv1 hinv2 hw hmem F₂ hF₂
      rw [walk_zero_eq] at hw
      split at hw
      · cases hw
        simp at hmem
      · rename_i d hfind
        split at hw
        · split at hw
          · cases hw
            simp only [List.mem_singleton] at hmem
            injection hmem with hdc
            have ht : List.takeWhile (fun pn => decide (pn ≠ PathNode.link c.id))
                [PathNode.link d.id] = [] := by
              simp [List.takeWhile_cons, ← hdc]
            rw [ht]
            exact walk_delete_stop cs c hwf hfind hdc.symm hinv1 hinv2 F₂ v
          · cases hw
            simp only [List.mem_singleton] at hmem
            injection hmem with hdc
            have ht : List.takeWhile (fun pn => decide (pn ≠ PathNode.link c.id))
                [PathNode.link d.id] = [] := by
              simp [List.takeWhile_cons, ← hdc]
            rw [ht]
            exact walk_delete_stop cs c hwf hfind hdc.symm hinv1 hinv2 F₂ v
          · split at hw
            · cases hw
            · cases hw
        · cases hw
          simp only [List.mem_singleton] at hmem
          injection hmem with hdc
          have ht : List.takeWhile (fun pn => decide (pn ≠ PathNode.link c.id))
              [PathNode.link d.id] = [] := by
            simp [List.takeWhile_cons, ← hdc]
          rw [ht]
          exact walk_delete_stop cs c hwf hfind hdc.symm hinv1 hinv2 F₂ v
  | succ F' ih =>
      intro v a cur ns ds hinv1 hinv2 hw hmem F₂ hF₂
      rw [walk_succ_eq] at hw
      split at hw
      · cases hw
        simp at hmem
      · rename_i d hfind
        split at hw
        · rename_i hst
          split at hw
          · cases hw
            simp only [List.mem_singleton] at hmem
            injection hmem with hdc
            have ht : List.takeWhile (fun pn => decide (pn ≠ PathNode.link c.id))
                [PathNode.link d.id] = [] := by
              simp [List.takeWhile_cons, ← hdc]
            rw [ht]
            exact walk_delete_stop cs c hwf hfind hdc.symm hinv1 hinv2 F₂ v
          · cases hw
            simp only [List.mem_singleton] at hmem
            injection hmem with hdc
            have ht : List.takeWhile (fun pn => decide (pn ≠ PathNode.link c.id))
                [PathNode.link d.id] = [] := by
              simp [List.takeWhile_cons, ← hdc]
            rw [ht]
            exact walk_delete_stop cs c hwf hfind hdc.symm hinv1 hinv2 F₂ v
          · rename_i q hop
            split at hw
            · cases hw
            · rename_i hnotmem
              split at hw
              · cases hw
              · rename_i ns' ds' hrec
                cases hw
                by_cases hdc : d.id = c.id
                · have ht : List.takeWhile (fun pn => decide (pn ≠ PathNode.link c.id))
                      (PathNode.link d.id :: PathNode.mid (Node.passthrough q) :: ns')
                      = [] := by
                    simp [List.takeWhile_cons, hdc]
                  rw [ht]
                  exact walk_delete_stop cs c hwf hfind hdc hinv1 hinv2 F₂ v
                · -- the walk continues through d in the smaller store
                  have hmem' : PathNode.link c.id ∈ ns' := by
                    simp only [List.mem_cons] at hmem
                    rcases hmem with h1 | h1 | h1
                    · injection h1 with h1; exact absurd h1.symm hdc
                    · cases h1
                    · exact h1
                  have hthead : List.takeWhile (fun pn => decide (pn ≠ PathNode.link c.id))
                      (PathNode.link d.id :: PathNode.mid (Node.passthrough q) :: ns')
                      = PathNode.link d.id :: PathNode.mid (Node.passthrough q) ::
                          List.takeWhile (fun pn => decide (pn ≠ PathNode.link c.id)) ns' := by
                    simp [List.takeWhile_cons, hdc]
                  rw [hthead]
                  rw [hthead] at hF₂
                  have hmidlen : (midNodes (PathNode.link d.id :: PathNode.mid (Node.passthrough q) ::
                      List.takeWhile (fun pn => decide (pn ≠ PathNode.link c.id)) ns')).length
                      = (midNodes (List.takeWhile (fun pn => decide (pn ≠ PathNode.link c.id)) ns')).length + 1 := by
                    simp [midNodes]
                  rw [hmidlen] at hF₂
                  cases F₂ with
                  | zero => omega
                  | succ F₂' =>
                      have hF₂' : (midNodes (List.takeWhile
                          (fun pn => decide (pn ≠ PathNode.link c.id)) ns')).length < F₂' := by
                        omega
                      have hfind' : findNextLink (deleteCables cs c.id) cur a = some d :=
                        findNextLink_delete_eq hfind hdc
                      have hih : walk (deleteCables cs c.id) F₂'
                          (Node.passthrough q :: v) (some d.id) (Node.passthrough q) =
                          Except.ok (List.takeWhile
                            (fun pn => decide (pn ≠ PathNode.link c.id)) ns', []) := by
                        apply ih (Node.passthrough q :: v) (some d.id) (Node.passthrough q)
                          _ _ (by intro h; cases h) ?_ hrec hmem' F₂' hF₂'
                        intro x hx
                        injection hx with hx
                        subst hx
                        exact ⟨hdc, d, (findNextLink_mem hfind).1, rfl,
                          isAttached_of_mem_term (oppositeFirst_mem hop)⟩
                      rw [walk_succ_eq, hfind']
                      simp [hst, hop, hnotmem, hih]
        · cases hw
          simp only [List.mem_singleton] at hmem
          injection hmem with hdc
          have ht : List.takeWhile (fun pn => decide (pn ≠ PathNode.link c.id))
              [PathNode.link d.id] = [] := by
            simp [List.takeWhile_cons, ← hdc]
          rw [ht]
          exact walk_delete_stop cs c hwf hfind hdc.symm hinv1 hinv2 F₂ v


/-! ## Claim C4 -/

/-- C4: deleting a Link retraces every CablePath containing it (first
conjunct: the deletion handler maps exactly the containing paths through
`retrace`); and for a path whose stored contents agreed with the
pre-deletion store, that retrace either shrinks the path to the surviving
prefix before the deleted Link — with destinations emptied and
`is_active` recomputed — or deletes the path when no prefix survives
(second conjunct). -/
theorem c4_delete_retraces (c : Cable) (s : Sys) (p : CablePath) (e : Nat)
    (hwf : envWF s.cables)
    (ho : p.origin.head? = some (Node.endpoint e))
    (hw : walkFromOrigin s.cables (Node.endpoint e) =
      Except.ok (p._nodes, p.destinations))
    (hcont : containsLink p c.id = true) :
    ((on_link_deleted c s).paths =
      s.paths.filterMap (fun q =>
        if containsLink q c.id then retrace (deleteCables s.cables c.id) q
        else some q)) ∧
    (retrace (deleteCables s.cables c.id) p =
      (if (p._nodes.takeWhile (fun pn => decide (pn ≠ PathNode.link c.id))).isEmpty
       then none
       else some { origin := p.origin,
                   _nodes := p._nodes.takeWhile
                     (fun pn => decide (pn ≠ PathNode.link c.id)),
                   destinations := [],
                   is_active := isActive (deleteCables s.cables c.id)
                     (p._nodes.takeWhile
                       (fun pn => decide (pn ≠ PathNode.link c.id))) })) := by
  constructor
  · rfl
  · have hmem : PathNode.link c.id ∈ p._nodes := of_decide_eq_true hcont
    obtain ⟨_, hnodup, hsub⟩ := walk_ok_mids s.cables (fuelFor s.cables)
      [Node.endpoint e] none (Node.endpoint e) p._nodes p.destinations hw
    have hsubl : (midNodes (p._nodes.takeWhile
        (fun pn => decide (pn ≠ PathNode.link c.id)))).length
        ≤ (midNodes p._nodes).length :=
      ((List.takeWhile_sublist _).filterMap _).length_le
    have hlen0 : (midNodes p._nodes).length ≤ (allTermNodes s.cables).length :=
      (List.subperm_of_subset hnodup (fun m hm => hsub m hm)).length_le
    have hlen1 : (midNodes (p._nodes.takeWhile
        (fun pn => decide (pn ≠ PathNode.link c.id)))).length < fuelFor s.cables := by
      unfold fuelFor
      omega
    have h1 : walk (deleteCables s.cables c.id) (fuelFor s.cables)
        [Node.endpoint e] none (Node.endpoint e) =
        Except.ok (p._nodes.takeWhile (fun pn => decide (pn ≠ PathNode.link c.id)), []) :=
      walk_delete_trunc s.cables c hwf (fuelFor s.cables)
        [Node.endpoint e] none (Node.endpoint e) p._nodes p.destinations
        (fun _ => ⟨e, rfl⟩) (fun x hx => nomatch hx) hw hmem
        (fuelFor s.cables) hlen1
    obtain ⟨_, hnodup', hsub'⟩ := walk_ok_mids (deleteCables s.cables c.id)
      (fuelFor s.cables) [Node.endpoint e] none (Node.endpoint e) _ _ h1
    have hlen2 : (midNodes (p._nodes.takeWhile
        (fun pn => decide (pn ≠ PathNode.link c.id)))).length
        < fuelFor (deleteCables s.cables c.id) := by
      have := (List.subperm_of_subset hnodup' (fun m hm => hsub' m hm)).length_le
      unfold fuelFor
      omega
    have h2 : walkFromOrigin (deleteCables s.cables c.id) (Node.endpoint e) =
        Except.ok (p._nodes.takeWhile (fun pn => decide (pn ≠ PathNode.link c.id)), []) :=
      walk_delete_trunc s.cables c hwf (fuelFor s.cables)
        [Node.endpoint e] none (Node.endpoint e) p._nodes p.destinations
        (fun _ => ⟨e, rfl⟩) (fun x hx => nomatch hx) hw hmem
        (fuelFor (deleteCables s.cables c.id)) hlen2
    unfold retrace
    simp only [ho, h2]

theorem c4_delete_retraces_witness :
    (envWF wSys.cables ∧
     wPath.origin.head? = some (Node.endpoint 1) ∧
     walkFromOrigin wSys.cables (Node.endpoint 1) =
       Except.ok (wPath._nodes, wPath.destinations) ∧
     containsLink wPath wL2.id = true) ∧
    retrace (deleteCables wSys.cables wL2.id) wPath =
      some { origin := [wA], _nodes := [PathNode.link 10, PathNode.mid wP],
             destinations := [], is_active := true } ∧
    (on_link_deleted wL2 wSys).paths =
      [{ origin := [wA], _nodes := [PathNode.link 10, PathNode.mid wP],
         destinations := [], is_active := true }, wStray] := by
  refine ⟨⟨by decide, by decide, by rfl, by decide⟩, ?_, ?_⟩
  · rw [(c4_delete_retraces wL2 wSys wPath 1 (by decide) (by decide)
      (by rfl) (by decide)).2]
    decide
  · rw [(c4_delete_retraces wL2 wSys wPath 1 (by decide) (by decide)
      (by rfl) (by decide)).1]
    decide


def wTermObj : TerminationObj :=
  { termType := 4, pk := 11, _link_peer_type := some 2, _link_peer_id := some 99 }

def wTermObj2 : TerminationObj :=
  { termType := 4, pk := 12, _link_peer_type := some 1, _link_peer_id := some 1 }

def wCT : CableTermination := { termination_type := 4, termination_id := 11 }

def wSysT : Sys := { cables := [], paths := [wStray], termObjs := [wTermObj, wTermObj2] }

theorem c5_termination_delete_clears_peer_witness :
    (nullify_connected_endpoints wCT wSysT).termObjs =
      [{ termType := 4, pk := 11, _link_peer_type := none, _link_peer_id := none },
       wTermObj2] ∧
    (nullify_connected_endpoints wCT wSysT).paths = wSysT.paths := by
  constructor
  · rw [(c5_termination_delete_clears_peer wCT wSysT).2.2.1]
    decide
  · exact (c5_termination_delete_clears_peer wCT wSysT).2.1

theorem c6_terminations_immutable_witness :
    (update_connected_endpoints wL2 false false wSys).cables = wSys.cables ∧
    wL1.status = wL1._orig_status ∧
    update_connected_endpoints wL1 false false wSys = wSys :=
  ⟨(c6_terminations_immutable wL2 false false wSys).1,
   by decide,
   (c6_terminations_immutable wL1 false false wSys).2.2.2.2.2.2 rfl rfl (by decide)⟩

end CablePathSpec
